import Mathlib

/-!
# NMEA ingestion engine of the Multi-Mobiles plug-in

A shallow embedding of `multimobiles_pi.cpp`: the per-feed reader
(`NMEAReaderThread`), its sentence parsers, the coordinate conversion, and
the shared table of mobiles with its periodic sweep.

Conventions of the embedding.

* A `wxString` is the sequence of its characters (`List Char`).
* A C++ `double` is idealised as an exact rational: rounding, infinities and
  NaN of the binary format are outside the model. The range of the format is
  kept where a library call tests it (`ERANGE`).
* A C++ `int` is a 32-bit two's-complement integer: arithmetic on it wraps,
  and a conversion from a `double` outside its range yields `INT_MIN`.
* A `wxDateTime` is its count of milliseconds; the clock `wxDateTime::Now()`
  is an input of the functions that read it.
* A read of `wxArrayString` past its count is a fault: the functions that
  index an array return an `Option`, `none` standing for the fault.
-/

namespace MultiMobiles

/-! ## Strings of wxWidgets -/

/-- A string of wxWidgets, as the sequence of its characters. -/
abbrev wxString := List Char

/-- Characters that `wxSafeIsspace` (the C `isspace` on ASCII) accepts. -/
def isspace (c : Char) : Bool :=
  c == ' ' || c == '\t' || c == '\n' || c == '\x0b' || c == '\x0c' || c == '\r'

/-- Index of the first occurrence of a character, as `wxString::Find(wxUniChar)`
returns it; `none` stands for `wxNOT_FOUND`. -/
def Find (ch : Char) : wxString → Option Nat
  | [] => none
  | c :: cs => if c = ch then some 0 else (Find ch cs).map (· + 1)

/-- The first `n` characters, as `wxString::Left`. -/
def Left (s : wxString) (n : Nat) : wxString := s.take n

/-- The characters from index `n` to the end, as `wxString::Mid` with its
default count. -/
def Mid (s : wxString) (n : Nat) : wxString := s.drop n

/-- The string without its trailing white space, as `wxString::Trim()` with
its default argument `bFromRight = true`. -/
def Trim (s : wxString) : wxString := (s.reverse.dropWhile isspace).reverse

/-- Whether the string begins with the given text, as `wxString::StartsWith`. -/
def StartsWith (s pre : wxString) : Bool := pre.isPrefixOf s

/-- Whether the text occurs somewhere in the string, as `wxString::Contains`. -/
def Contains (s sub : wxString) : Bool :=
  match s with
  | [] => sub.isPrefixOf []
  | c :: cs => sub.isPrefixOf (c :: cs) || Contains cs sub

/-- Whether the string has no character, as `wxString::IsEmpty`. -/
def IsEmpty (s : wxString) : Bool := s.isEmpty

/-- The scanning loop of `wxSplit`: `curr` is the token being built, `ret`
the tokens already closed. An escape character before a separator or before
another escape character is dropped and the next character taken literally;
an escape character that ends the string is kept. -/
def wxSplitLoop (sep esc : Char) : wxString → wxString → List wxString → List wxString
  | [], curr, ret => ret ++ [curr]
  | ch :: rest, curr, ret =>
    if ch = sep then wxSplitLoop sep esc rest [] (ret ++ [curr])
    else if ch = esc then
      match rest with
      | [] => ret ++ [curr ++ [ch]]
      | nx :: rest2 =>
        if nx ≠ sep ∧ nx ≠ esc then wxSplitLoop sep esc rest2 (curr ++ [ch, nx]) ret
        else wxSplitLoop sep esc rest2 (curr ++ [nx]) ret
    else wxSplitLoop sep esc rest (curr ++ [ch]) ret

/-- The tokens of a string, as `wxSplit(str, sep)` with its default escape
character, the backslash. The empty string has no token. -/
def wxSplit (str : wxString) (sep : Char) : List wxString :=
  if str.isEmpty then [] else wxSplitLoop sep '\\' str [] []

/-- The element at an index, as `wxArrayString::operator[]`; `none` is the
read past the count of the array. -/
def Item (fields : List wxString) (i : Nat) : Option wxString := fields.get? i

/-! ## Numeric conversions of wxString -/

/-- The characters a C library routine sees through `wx_str()`: those before
the first NUL. -/
def cstr (s : wxString) : wxString := s.takeWhile (fun c => c != Char.ofNat 0)

/-- Decimal digits, as the C `isdigit`. -/
def isdigit (c : Char) : Bool := decide ('0' ≤ c) && decide (c ≤ '9')

/-- Value of a run of decimal digits. -/
def digitsValue (ds : wxString) : Nat :=
  ds.foldl (fun n c => 10 * n + (c.toNat - 48)) 0

/-- Splits an optional sign off the front: the flag is true for a minus. -/
def takeSign : wxString → Bool × wxString
  | '-' :: r => (true, r)
  | '+' :: r => (false, r)
  | r => (false, r)

/-- Least value of a C `long` (64 bits). -/
def LONG_MIN : Int := -(2 ^ 63)

/-- Greatest value of a C `long` (64 bits). -/
def LONG_MAX : Int := 2 ^ 63 - 1

/-- The integer a string denotes, as `wxString::ToLong` in base 10: `strtol`
skips leading white space, reads an optional sign and decimal digits, and the
call succeeds only when at least one digit was read, nothing follows the
digits, and the value fits a `long`. `none` is the `false` return. -/
def ToLong (s : wxString) : Option Int :=
  let body := takeSign ((cstr s).dropWhile isspace)
  let ds := body.2
  if ds.isEmpty || !ds.all isdigit then none
  else
    let v : Int := if body.1 then -(digitsValue ds : Int) else (digitsValue ds : Int)
    if LONG_MIN ≤ v ∧ v ≤ LONG_MAX then some v else none

/-- Hexadecimal digits, as the C `isxdigit`. -/
def isxdigit (c : Char) : Bool :=
  isdigit c || (decide ('a' ≤ c) && decide (c ≤ 'f')) || (decide ('A' ≤ c) && decide (c ≤ 'F'))

/-- Value of one hexadecimal digit. -/
def xdigitVal (c : Char) : Nat :=
  if isdigit c then c.toNat - 48 else if 'a' ≤ c then c.toNat - 87 else c.toNat - 55

/-- Value of a run of hexadecimal digits. -/
def xdigitsValue (ds : wxString) : Nat :=
  ds.foldl (fun n c => 16 * n + xdigitVal c) 0

/-- Lower-case form of an ASCII letter, as the C `tolower`. -/
def tolower (c : Char) : Char :=
  if 'A' ≤ c ∧ c ≤ 'Z' then Char.ofNat (c.toNat + 32) else c

/-- The digits of a mantissa with its optional point: the digits read (those
before and after the point together), the number of digits after the point,
and the text that follows. At least one digit is required; a point that
follows digits is read even when no digit follows it. -/
def scanMantissa (isdig : Char → Bool) (s : wxString) : Option (wxString × Nat × wxString) :=
  let ip := s.takeWhile isdig
  match s.dropWhile isdig with
  | '.' :: r =>
    let fp := r.takeWhile isdig
    if ip.isEmpty && fp.isEmpty then none else some (ip ++ fp, fp.length, r.dropWhile isdig)
  | r1 => if ip.isEmpty then none else some (ip, 0, r1)

/-- The optional exponent part of a floating literal: the marker letter, an
optional sign and at least one decimal digit. The result is the exponent and
the text that follows; when the part is absent or malformed the exponent is 0
and nothing is read. -/
def scanExp (lower upper : Char) : wxString → Int × wxString
  | [] => (0, [])
  | c :: r =>
    if c = lower ∨ c = upper then
      let body := takeSign r
      let ds := body.2.takeWhile isdigit
      if ds.isEmpty then (0, c :: r)
      else
        (if body.1 then -(digitsValue ds : Int) else (digitsValue ds : Int),
          body.2.dropWhile isdigit)
    else (0, c :: r)

/-- A decimal floating literal at the front of a text: mantissa `m`, decimal
exponent `e` (the literal denotes `m * 10 ^ e`) and the text that follows. -/
def scanDec (s : wxString) : Option (Nat × Int × wxString) :=
  match scanMantissa isdigit s with
  | none => none
  | some (ds, k, r) => some (digitsValue ds, (scanExp 'e' 'E' r).1 - k, (scanExp 'e' 'E' r).2)

/-- A hexadecimal floating literal at the front of a text, its `0x` included:
mantissa `m`, binary exponent `e` (the literal denotes `m * 2 ^ e`) and the
text that follows. -/
def scanHex : wxString → Option (Nat × Int × wxString)
  | '0' :: x :: s =>
    if x = 'x' ∨ x = 'X' then
      match scanMantissa isxdigit s with
      | none => none
      | some (ds, k, r) =>
        some (xdigitsValue ds, (scanExp 'p' 'P' r).1 - 4 * k, (scanExp 'p' 'P' r).2)
    else none
  | _ => none

/-- Characters allowed between the brackets of `NAN(...)`. -/
def isNanChar (c : Char) : Bool :=
  isdigit c || (decide ('a' ≤ c) && decide (c ≤ 'z')) || (decide ('A' ≤ c) && decide (c ≤ 'Z'))
    || c == '_'

/-- An infinity or a NaN at the front of a text, in any letter case: `INFINITY`,
`INF`, `NAN` or `NAN(...)`. The result is the text that follows. -/
def scanSpecial (s : wxString) : Option wxString :=
  if (s.take 8).map tolower = "infinity".toList then some (s.drop 8)
  else if (s.take 3).map tolower = "inf".toList then some (s.drop 3)
  else if (s.take 3).map tolower = "nan".toList then
    match s.drop 3 with
    | '(' :: r =>
      match r.dropWhile isNanChar with
      | ')' :: r2 => some r2
      | _ => some ('(' :: r)
    | r => some r
  else none

/-- What the C `strtod` reads at the front of a text: nothing at all; a
finite number, given as mantissa, base and exponent (it denotes
`mant * base ^ exp`); or an infinity or a NaN. `rest` is the text from the
end pointer on. -/
inductive Strtod where
  | nothing
  | finite (mant : Int) (base : Nat) (exp : Int) (rest : wxString)
  | special (rest : wxString)
  deriving DecidableEq

/-- The scan of `strtod` in the C locale: leading white space, an optional
sign, then the longest of a hexadecimal literal, a decimal literal, or an
infinity or NaN. -/
def strtod (s : wxString) : Strtod :=
  let body := takeSign (s.dropWhile isspace)
  let sgn : Int := if body.1 then -1 else 1
  match scanHex body.2 with
  | some (m, e, rest) => Strtod.finite (sgn * m) 2 e rest
  | none =>
    match scanDec body.2 with
    | some (m, e, rest) => Strtod.finite (sgn * m) 10 e rest
    | none =>
      match scanSpecial body.2 with
      | some rest => Strtod.special rest
      | none => Strtod.nothing

/-- The number a scanned literal denotes. -/
def litValue (mant : Int) (base : Nat) (exp : Int) : ℚ := (mant : ℚ) * (base : ℚ) ^ exp

/-- Magnitude from which a number rounds to an infinite `double`: halfway
between the greatest finite `double` and `2 ^ 1024`. -/
def DBL_OVERFLOW : ℚ := 2 ^ 1024 - 2 ^ 970

/-- Magnitude below which a number, rounded to the precision of a `double`,
is still smaller than the least normal `double` `2 ^ (-1022)`. -/
def DBL_TINY : ℚ := 1 / 2 ^ 1022 - 1 / 2 ^ 1076

/-- Whether `strtod` sets `errno` to `ERANGE` for a number: on overflow, and,
as the GNU C library reports underflow, for a tiny number that no subnormal
`double` represents exactly. -/
def ERANGE (v : ℚ) : Bool :=
  decide (DBL_OVERFLOW ≤ |v|) ||
    (decide (v ≠ 0) && decide (|v| < DBL_TINY) && decide ((v * 2 ^ 1074).den ≠ 1))

/-- The flag that `wxString::ToDouble` returns: true when `strtod` has read
something, up to the end of the string, without `ERANGE`. -/
def ToDoubleReturn (s : wxString) : Bool :=
  match strtod (cstr s) with
  | Strtod.nothing => false
  | Strtod.finite m b e rest => rest.isEmpty && !ERANGE (litValue m b e)
  | Strtod.special rest => rest.isEmpty

/-- The finite number that `wxString::ToDouble` stores when it returns true.
`none` is the `false` return, and also the successful reading of an infinity
or a NaN, which has no rational value and is outside the model. -/
def ToDouble (s : wxString) : Option ℚ :=
  match strtod (cstr s) with
  | Strtod.finite m b e rest =>
    if rest.isEmpty && !ERANGE (litValue m b e) then some (litValue m b e) else none
  | _ => none

/-- The content of `x` after the call `s.ToDouble(&x)`: `x` is left untouched
when nothing is read or on `ERANGE`; otherwise the number read is stored,
also when text follows it and the call returns false. A stored infinity or
NaN has no rational value: the model leaves `x` as it was. -/
def ToDoubleOut (s : wxString) (x : ℚ) : ℚ :=
  match strtod (cstr s) with
  | Strtod.finite m b e _ => if ERANGE (litValue m b e) then x else litValue m b e
  | _ => x

/-! ## The C `int` -/

/-- Least value of a C `int` (32 bits). -/
def INT_MIN : Int := -(2 ^ 31)

/-- Greatest value of a C `int` (32 bits). -/
def INT_MAX : Int := 2 ^ 31 - 1

/-- Reduction of an integer to the 32-bit two's-complement range: the result
of `int` arithmetic. -/
def wrapInt (z : Int) : Int := (z + 2 ^ 31) % 2 ^ 32 - 2 ^ 31

/-- The cast `(int)x` of a `double`: truncation toward zero; a value outside
the range of `int` gives `INT_MIN`. -/
def toInt (x : ℚ) : Int :=
  let t := Int.tdiv x.num x.den
  if INT_MIN ≤ t ∧ t ≤ INT_MAX then t else INT_MIN

/-! ## Data model -/

/-- A point in time, as the millisecond count held by a `wxDateTime`. -/
abbrev wxDateTime := Int

/-- The value of a default-constructed `wxDateTime`. -/
def wxInvalidDateTime : wxDateTime := -(2 ^ 63)

/-- A colour, as a packed RGB value; `none` is the default-constructed
`wxColour`. -/
abbrev wxColour := Option Nat

/-- Information kept for one mobile (`struct MobileInfo`). -/
structure MobileInfo where
  id : wxString
  name : wxString
  latitude : ℚ
  longitude : ℚ
  course : ℚ
  speed : ℚ
  lastUpdate : wxDateTime
  color : wxColour
  isValid : Bool
  deriving DecidableEq

/-- The default constructor `MobileInfo()`. -/
def MobileInfo.new : MobileInfo :=
  { id := [], name := [], latitude := 0, longitude := 0, course := 0, speed := 0,
    lastUpdate := wxInvalidDateTime, color := none, isValid := false }

/-! ## NMEAReaderThread: parsing -/

/-- Conversion of an NMEA `DDMM.mmmm` / `DDDMM.mmmm` coordinate and its
hemisphere letter to signed decimal degrees
(`NMEAReaderThread::ConvertToDecimalDegrees`). For a coordinate read as an
infinity or a NaN the code goes on with a value that is no rational, through
a cast to `int` that C++ leaves undefined: the model has no value for it and
gives 0. -/
def ConvertToDecimalDegrees (coord hemisphere : wxString) : ℚ :=
  if coord.length < 4 then 0
  else
    match ToDouble coord with
    | none => 0
    | some value =>
      let degrees : Int := toInt (value / 100)
      let minutes : ℚ := value - (wrapInt (degrees * 100) : ℚ)
      let result : ℚ := (degrees : ℚ) + minutes / 60
      if hemisphere = "S".toList ∨ hemisphere = "W".toList then -result else result

/-- Parser of a GGA sentence (`NMEAReaderThread::ParseGGA`). `now` is what
`wxDateTime::Now()` returns. The result is the returned flag and the
`MobileInfo` after the call; `none` is a read past the end of `fields`. -/
def ParseGGA (now : wxDateTime) (sentence : wxString) (mobile : MobileInfo) :
    Option (Bool × MobileInfo) :=
  let fields := wxSplit sentence ','
  if fields.length < 6 then some (false, mobile)
  else do
    let f6 ← Item fields 6
    match ToLong f6 with
    | none => some (false, mobile)
    | some quality =>
      if quality = 0 then some (false, mobile)
      else do
        let f2 ← Item fields 2
        let f3 ← Item fields 3
        let m1 : MobileInfo :=
          if !IsEmpty f2 && !IsEmpty f3 then
            { mobile with latitude := ConvertToDecimalDegrees f2 f3 }
          else mobile
        let f4 ← Item fields 4
        let f5 ← Item fields 5
        let m2 : MobileInfo :=
          if !IsEmpty f4 && !IsEmpty f5 then
            { m1 with longitude := ConvertToDecimalDegrees f4 f5 }
          else m1
        some (true, { m2 with lastUpdate := now, isValid := true })

/-- Parser of an RMC sentence (`NMEAReaderThread::ParseRMC`), with the same
conventions as `ParseGGA`. -/
def ParseRMC (now : wxDateTime) (sentence : wxString) (mobile : MobileInfo) :
    Option (Bool × MobileInfo) :=
  let fields := wxSplit sentence ','
  if fields.length < 9 then some (false, mobile)
  else do
    let f2 ← Item fields 2
    if f2 ≠ "A".toList then some (false, mobile)
    else do
      let f3 ← Item fields 3
      let f4 ← Item fields 4
      let m1 : MobileInfo :=
        if !IsEmpty f3 && !IsEmpty f4 then
          { mobile with latitude := ConvertToDecimalDegrees f3 f4 }
        else mobile
      let f5 ← Item fields 5
      let f6 ← Item fields 6
      let m2 : MobileInfo :=
        if !IsEmpty f5 && !IsEmpty f6 then
          { m1 with longitude := ConvertToDecimalDegrees f5 f6 }
        else m1
      let f7 ← Item fields 7
      let m3 : MobileInfo :=
        if !IsEmpty f7 then { m2 with speed := ToDoubleOut f7 m2.speed } else m2
      let f8 ← Item fields 8
      let m4 : MobileInfo :=
        if !IsEmpty f8 then { m3 with course := ToDoubleOut f8 m3.course } else m3
      some (true, { m4 with lastUpdate := now, isValid := true })

/-- Dispatch on the sentence type (`NMEAReaderThread::ParseNMEASentence`). -/
def ParseNMEASentence (now : wxDateTime) (sentence : wxString) (mobile : MobileInfo) :
    Option (Bool × MobileInfo) :=
  if Contains sentence "GGA".toList then ParseGGA now sentence mobile
  else if Contains sentence "RMC".toList then ParseRMC now sentence mobile
  else some (false, mobile)

/-! ## MultiMobilesPlugin: the table of mobiles -/

/-- The table `m_mobiles` (`std::map<wxString, MobileInfo>`), as an
association list; its order carries no meaning. -/
abbrev Store := List (wxString × MobileInfo)

/-- The entry stored under a key, if any. -/
def Lookup (mobileId : wxString) : Store → Option MobileInfo
  | [] => none
  | (k, v) :: rest => if k = mobileId then some v else Lookup mobileId rest

/-- Assignment `m_mobiles[mobileId] = info`
(`MultiMobilesPlugin::UpdateMobilePosition`): the entry is created when the
key is new and overwritten as a whole otherwise. -/
def UpdateMobilePosition (mobileId : wxString) (info : MobileInfo) : Store → Store
  | [] => [(mobileId, info)]
  | (k, v) :: rest =>
    if k = mobileId then (k, info) :: rest
    else (k, v) :: UpdateMobilePosition mobileId info rest

/-- The span `wxTimeSpan::Seconds(n)`, in milliseconds. -/
def Seconds (n : Int) : Int := n * 1000

/-- The sweep of `MultiMobilesPlugin::OnTimer`: with `cutoff` thirty seconds
before `now`, every entry with `lastUpdate < cutoff` is erased. -/
def OnTimer (now : wxDateTime) (m_mobiles : Store) : Store :=
  let cutoff := now - Seconds 30
  m_mobiles.filter (fun e => !decide (e.2.lastUpdate < cutoff))

/-! ## NMEAReaderThread: the reading loop -/

/-- The inner loop of `NMEAReaderThread::Entry`: while the buffer holds a
newline, the text before it is cut off, trimmed, and handed to `handle` when
it starts with a dollar sign. `handle` stands for the guarded call of the
parser and what follows it; `fuel` bounds the number of turns. -/
def ProcessLines {σ : Type} (handle : wxString → σ → σ) :
    Nat → wxString → σ → wxString × σ
  | 0, buffer, st => (buffer, st)
  | fuel + 1, buffer, st =>
    match Find '\n' buffer with
    | none => (buffer, st)
    | some pos =>
      let line := Trim (Left buffer pos)
      ProcessLines handle fuel (Mid buffer (pos + 1))
        (if StartsWith line "$".toList then handle line st else st)

/-- One successful `ReadString` of `Entry`: the data is appended to the
buffer and the complete lines are processed. Every turn of the inner loop
removes at least the newline it found, so the length of the buffer is fuel
enough. -/
def OnData {σ : Type} (handle : wxString → σ → σ) (data : wxString)
    (s : wxString × σ) : wxString × σ :=
  ProcessLines handle (s.1 ++ data).length (s.1 ++ data) s.2

/-- The handler that records, in order, the lines handed to the parser. -/
def Record (line : wxString) (seen : List wxString) : List wxString := seen ++ [line]

/-- What the guard `ParseNMEASentence(line, mobile)` and its body do to the
local `mobile` of the thread and to the shared table: the sentence is parsed
into `mobile`, and on success `mobile` is copied into the table. `none` is a
fault of the parser. -/
def HandleSentence (m_mobileId : wxString) (now : wxDateTime) (line : wxString)
    (s : MobileInfo × Store) : Option (MobileInfo × Store) :=
  match ParseNMEASentence now line s.1 with
  | none => none
  | some (true, mobile) => some (mobile, UpdateMobilePosition m_mobileId mobile s.2)
  | some (false, mobile) => some (mobile, s.2)

/-- What a reader thread acts upon: its local `mobile`, the shared table, and
the number of clock readings taken so far. -/
structure ReaderState where
  mobile : MobileInfo
  m_mobiles : Store
  reads : Nat

/-- The state in which `Entry` enters its loop: a fresh `MobileInfo` carrying
the identifier of the feed. -/
def ReaderState.start (m_mobileId : wxString) (m_mobiles : Store) : ReaderState :=
  { mobile := { MobileInfo.new with id := m_mobileId }, m_mobiles := m_mobiles, reads := 0 }

/-- The handler of `Entry`: the guarded call of the parser and the copy into
the table, as `HandleSentence`, with the clock read from `clock`. The clock
is read, and the count of readings advanced, only by a sentence that is
accepted. A faulted thread stays faulted. -/
def EntryHandle (m_mobileId : wxString) (clock : Nat → wxDateTime) (line : wxString)
    (st : Option ReaderState) : Option ReaderState :=
  match st with
  | none => none
  | some s =>
    match ParseNMEASentence (clock s.reads) line s.mobile with
    | none => none
    | some (true, mobile) =>
      some { mobile := mobile,
             m_mobiles := UpdateMobilePosition m_mobileId mobile s.m_mobiles,
             reads := s.reads + 1 }
    | some (false, mobile) =>
      some { mobile := mobile, m_mobiles := s.m_mobiles, reads := s.reads }

/-- Folds `ParseNMEASentence` over a sequence of timed sentences, threading
the `MobileInfo` as `Entry` does with its local `mobile`. -/
def ParseAll : List (wxDateTime × wxString) → MobileInfo → Option MobileInfo
  | [], mobile => some mobile
  | (now, sentence) :: rest, mobile =>
    match ParseNMEASentence now sentence mobile with
    | none => none
    | some r => ParseAll rest r.2

/-! ## The framing as the specification words it -/

/-- The framing the specification describes, to compare the loop with: the
complete lines of a text, that is the pieces each ended by a newline, and the
text that follows the last newline. -/
def SpecLines : wxString → List wxString × wxString
  | [] => ([], [])
  | c :: cs =>
    if c = '\n' then ([] :: (SpecLines cs).1, (SpecLines cs).2)
    else
      match (SpecLines cs).1 with
      | [] => ([], c :: (SpecLines cs).2)
      | l :: ls => ((c :: l) :: ls, (SpecLines cs).2)

/-! ## Auxiliary facts -/

/-- A list of at least seven elements, spelled out. -/
theorem seven_fields {α : Type} : ∀ l : List α, 7 ≤ l.length →
    ∃ a0 a1 a2 a3 a4 a5 a6 rest, l = a0 :: a1 :: a2 :: a3 :: a4 :: a5 :: a6 :: rest
  | a0 :: a1 :: a2 :: a3 :: a4 :: a5 :: a6 :: rest, _ =>
    ⟨a0, a1, a2, a3, a4, a5, a6, rest, rfl⟩
  | [], h => by simp at h
  | [_], h => by simp at h
  | [_, _], h => by simp at h
  | [_, _, _], h => by simp at h
  | [_, _, _, _], h => by simp at h
  | [_, _, _, _, _], h => by simp at h
  | [_, _, _, _, _, _], h => by simp at h

/-- A list of exactly six elements, spelled out. -/
theorem six_fields {α : Type} : ∀ l : List α, l.length = 6 →
    ∃ a0 a1 a2 a3 a4 a5, l = [a0, a1, a2, a3, a4, a5]
  | [a0, a1, a2, a3, a4, a5], _ => ⟨a0, a1, a2, a3, a4, a5, rfl⟩
  | [], h => by simp at h
  | [_], h => by simp at h
  | [_, _], h => by simp at h
  | [_, _, _], h => by simp at h
  | [_, _, _, _], h => by simp at h
  | [_, _, _, _, _], h => by simp at h
  | _ :: _ :: _ :: _ :: _ :: _ :: _ :: _, h => by simp at h

/-- A list of at least nine elements, spelled out. -/
theorem nine_fields {α : Type} (l : List α) (h : 9 ≤ l.length) :
    ∃ a0 a1 a2 a3 a4 a5 a6 a7 a8 rest,
      l = a0 :: a1 :: a2 :: a3 :: a4 :: a5 :: a6 :: a7 :: a8 :: rest := by
  obtain ⟨a0, a1, a2, a3, a4, a5, a6, r, rfl⟩ := seven_fields l (by omega)
  match r, h with
  | a7 :: a8 :: rest, _ => exact ⟨a0, a1, a2, a3, a4, a5, a6, a7, a8, rest, rfl⟩
  | [], h => simp at h
  | [_], h => simp at h

/-- The parser `ParseGGA` on seven fields or more rejects a sentence whose quality field
is not an integer, leaving the `MobileInfo` as it was. -/
theorem ParseGGA_reject_none (now : wxDateTime) (sentence : wxString) (mobile : MobileInfo)
    (f0 f1 f2 f3 f4 f5 f6 : wxString) (rest : List wxString)
    (hf : wxSplit sentence ',' = f0 :: f1 :: f2 :: f3 :: f4 :: f5 :: f6 :: rest)
    (hq : ToLong f6 = none) :
    ParseGGA now sentence mobile = some (false, mobile) := by
  simp [ParseGGA, hf, Item, hq]

/-- The parser `ParseGGA` on seven fields or more rejects a sentence whose quality field
is zero, leaving the `MobileInfo` as it was. -/
theorem ParseGGA_reject_zero (now : wxDateTime) (sentence : wxString) (mobile : MobileInfo)
    (f0 f1 f2 f3 f4 f5 f6 : wxString) (rest : List wxString)
    (hf : wxSplit sentence ',' = f0 :: f1 :: f2 :: f3 :: f4 :: f5 :: f6 :: rest)
    (hq : ToLong f6 = some 0) :
    ParseGGA now sentence mobile = some (false, mobile) := by
  simp [ParseGGA, hf, Item, hq]

/-- The parser `ParseGGA` on seven fields or more accepts a sentence whose quality field
is a non-zero integer; the resulting `MobileInfo` is given field by field. -/
theorem ParseGGA_accept (now : wxDateTime) (sentence : wxString) (mobile : MobileInfo)
    (f0 f1 f2 f3 f4 f5 f6 : wxString) (rest : List wxString) (q : Int)
    (hf : wxSplit sentence ',' = f0 :: f1 :: f2 :: f3 :: f4 :: f5 :: f6 :: rest)
    (hq : ToLong f6 = some q) (h0 : q ≠ 0) :
    ParseGGA now sentence mobile = some (true,
      { id := mobile.id, name := mobile.name,
        latitude := if f2 ≠ [] ∧ f3 ≠ [] then ConvertToDecimalDegrees f2 f3
                    else mobile.latitude,
        longitude := if f4 ≠ [] ∧ f5 ≠ [] then ConvertToDecimalDegrees f4 f5
                     else mobile.longitude,
        course := mobile.course, speed := mobile.speed,
        lastUpdate := now, color := mobile.color, isValid := true }) := by
  have hl : ¬ ((f0 :: f1 :: f2 :: f3 :: f4 :: f5 :: f6 :: rest).length < 6) := by
    simp only [List.length_cons]; omega
  unfold ParseGGA
  simp only [hf, if_neg hl, Item, List.get?, Option.bind_eq_bind, Option.some_bind, bind,
    hq, if_neg h0]
  simp only [Option.some.injEq, Prod.mk.injEq, true_and, MobileInfo.mk.injEq,
    apply_ite MobileInfo.id, apply_ite MobileInfo.name, apply_ite MobileInfo.latitude,
    apply_ite MobileInfo.longitude, apply_ite MobileInfo.course, apply_ite MobileInfo.speed,
    apply_ite MobileInfo.color, ite_self]
  simp [IsEmpty]

/-- A number that is zero, or of a magnitude between the least normal
`double` and `2 ^ 1023`, is read without `ERANGE`. -/
theorem ERANGE_of_ordinary (v : ℚ) (h1 : v = 0 ∨ 1 / 2 ^ 1022 ≤ |v|) (h2 : |v| < 2 ^ 1023) :
    ERANGE v = false := by
  have ho : ¬ DBL_OVERFLOW ≤ |v| := by
    have hk : (2 : ℚ) ^ 1023 ≤ DBL_OVERFLOW := by unfold DBL_OVERFLOW; norm_num
    intro h
    linarith
  have ht : v = 0 ∨ ¬ |v| < DBL_TINY := by
    rcases h1 with h1 | h1
    · exact Or.inl h1
    · refine Or.inr ?_
      have hk : DBL_TINY ≤ 1 / 2 ^ 1022 := by unfold DBL_TINY; norm_num
      intro h
      linarith
  have hpos : 0 < DBL_OVERFLOW := by unfold DBL_OVERFLOW; norm_num
  unfold ERANGE
  rcases ht with ht | ht
  · simp [ht, hpos]
  · simp [ho, ht]

/-- A string that `strtod` reads to its end as a finite number within range
is converted by `ToDouble` to that number. -/
theorem ToDouble_of_strtod (s : wxString) (m : Int) (b : Nat) (e : Int)
    (h : strtod (cstr s) = Strtod.finite m b e []) (hr : ERANGE (litValue m b e) = false) :
    ToDouble s = some (litValue m b e) := by
  unfold ToDouble
  rw [h]
  simp [hr]

/-- A string that `ToDouble` converts has its number stored in the output. -/
theorem ToDoubleOut_of_ToDouble (s : wxString) (v x : ℚ) (h : ToDouble s = some v) :
    ToDoubleOut s x = v := by
  unfold ToDouble at h
  unfold ToDoubleOut
  cases hs : strtod (cstr s) with
  | nothing => rw [hs] at h; simp at h
  | special rest => rw [hs] at h; simp at h
  | finite m b e rest =>
    rw [hs] at h
    simp only at h ⊢
    by_cases hc : (rest.isEmpty && !ERANGE (litValue m b e)) = true
    · rw [if_pos hc] at h
      have hr : ERANGE (litValue m b e) = false := by
        cases hE : ERANGE (litValue m b e)
        · rfl
        · rw [hE] at hc; simp at hc
      rw [hr]
      simpa using h
    · rw [if_neg hc] at h
      simp at h

/-- A string for which `ToDouble` returns false has no converted number. -/
theorem ToDouble_of_return_false (s : wxString) (h : ToDoubleReturn s = false) :
    ToDouble s = none := by
  unfold ToDoubleReturn at h
  unfold ToDouble
  cases hs : strtod (cstr s) with
  | nothing => rfl
  | special rest => rfl
  | finite m b e rest =>
    rw [hs] at h
    simp only at h ⊢
    rw [h]
    simp

/-- The empty string denotes no number. -/
theorem ToDouble_nil : ToDouble [] = none := by
  have h : strtod (cstr []) = Strtod.nothing := by decide
  unfold ToDouble
  rw [h]

/-- A call of `ToDouble` on the empty string leaves its output untouched. -/
theorem ToDoubleOut_nil (x : ℚ) : ToDoubleOut [] x = x := by
  have h : strtod (cstr []) = Strtod.nothing := by decide
  unfold ToDoubleOut
  rw [h]

/-- The parser `ParseRMC` on nine fields or more accepts a sentence whose status field is
`A`; the resulting `MobileInfo` is given field by field. -/
theorem ParseRMC_accept (now : wxDateTime) (sentence : wxString) (mobile : MobileInfo)
    (f0 f1 f3 f4 f5 f6 f7 f8 : wxString) (rest : List wxString)
    (hf : wxSplit sentence ',' =
      f0 :: f1 :: "A".toList :: f3 :: f4 :: f5 :: f6 :: f7 :: f8 :: rest) :
    ParseRMC now sentence mobile = some (true,
      { id := mobile.id, name := mobile.name,
        latitude := if f3 ≠ [] ∧ f4 ≠ [] then ConvertToDecimalDegrees f3 f4
                    else mobile.latitude,
        longitude := if f5 ≠ [] ∧ f6 ≠ [] then ConvertToDecimalDegrees f5 f6
                     else mobile.longitude,
        course := ToDoubleOut f8 mobile.course,
        speed := ToDoubleOut f7 mobile.speed,
        lastUpdate := now, color := mobile.color, isValid := true }) := by
  have hl : ¬ ((f0 :: f1 :: "A".toList :: f3 :: f4 :: f5 :: f6 :: f7 :: f8 :: rest).length < 9) := by
    simp only [List.length_cons]; omega
  unfold ParseRMC
  simp only [hf, if_neg hl, Item, List.get?, Option.bind_eq_bind,
    Option.some_bind, ne_eq, not_true_eq_false, bind, if_false]
  simp only [Option.some.injEq, Prod.mk.injEq, true_and, MobileInfo.mk.injEq,
    apply_ite MobileInfo.id, apply_ite MobileInfo.name, apply_ite MobileInfo.latitude,
    apply_ite MobileInfo.longitude, apply_ite MobileInfo.course, apply_ite MobileInfo.speed,
    apply_ite MobileInfo.color, ite_self]
  simp only [IsEmpty, List.isEmpty_eq_true, Bool.not_eq_true', Bool.and_eq_true,
    decide_eq_false_iff_not, ne_eq, and_true, true_and]
  refine ⟨?_, ?_, ?_, ?_⟩
  · simp
  · simp
  · by_cases h : f8 = []
    · simp [h, ToDoubleOut_nil]
    · simp [h]
  · by_cases h : f7 = []
    · simp [h, ToDoubleOut_nil]
    · simp [h]

/-- The parser `ParseRMC` on nine fields or more rejects a sentence whose status field is
not `A`, leaving the `MobileInfo` as it was. -/
theorem ParseRMC_reject (now : wxDateTime) (sentence : wxString) (mobile : MobileInfo)
    (f0 f1 f2 : wxString) (rest : List wxString)
    (hf : wxSplit sentence ',' = f0 :: f1 :: f2 :: rest)
    (hst : f2 ≠ "A".toList) :
    ParseRMC now sentence mobile = some (false, mobile) := by
  unfold ParseRMC
  simp only [hf]
  split
  · rfl
  · simp only [Item, List.get?, Option.bind_eq_bind, Option.some_bind, bind]
    rw [if_pos hst]

/-- The parser `ParseRMC` rejects a sentence of fewer than nine fields, leaving the
`MobileInfo` as it was. -/
theorem ParseRMC_short (now : wxDateTime) (sentence : wxString) (mobile : MobileInfo)
    (h : (wxSplit sentence ',').length < 9) :
    ParseRMC now sentence mobile = some (false, mobile) := by
  unfold ParseRMC
  simp only [if_pos h]

/-- The parser `ParseGGA` rejects a sentence of fewer than six fields, leaving the
`MobileInfo` as it was. -/
theorem ParseGGA_short (now : wxDateTime) (sentence : wxString) (mobile : MobileInfo)
    (h : (wxSplit sentence ',').length < 6) :
    ParseGGA now sentence mobile = some (false, mobile) := by
  unfold ParseGGA
  simp only [if_pos h]

/-- An integer within the range of `int` is its own reduction. -/
theorem wrapInt_of_range (z : Int) (h1 : INT_MIN ≤ z) (h2 : z ≤ INT_MAX) : wrapInt z = z := by
  unfold wrapInt
  unfold INT_MIN at h1
  unfold INT_MAX at h2
  omega

/-- The cast to `int` of a non-negative number whose integer part fits is its
integer part. -/
theorem toInt_of_nonneg (x : ℚ) (h0 : 0 ≤ x) (hr : ⌊x⌋ ≤ INT_MAX) : toInt x = ⌊x⌋ := by
  have hn : (0 : Int) ≤ x.num := Rat.num_nonneg.2 h0
  have hd : (0 : Int) ≤ (x.den : Int) := Int.ofNat_nonneg _
  have ht : Int.tdiv x.num x.den = ⌊x⌋ := by
    rw [Int.tdiv_eq_ediv hn hd, Rat.floor_def]
  have hf : (0 : Int) ≤ ⌊x⌋ := Int.floor_nonneg.2 h0
  unfold toInt
  simp only [ht]
  rw [if_pos]
  refine ⟨?_, hr⟩
  unfold INT_MIN
  omega

/-- The value of `ConvertToDecimalDegrees` on a coordinate that parses, for a
hemisphere that does not negate. -/
theorem ConvertToDecimalDegrees_of_parse (coord hemisphere : wxString) (v : ℚ)
    (hlen : 4 ≤ coord.length) (hv : ToDouble coord = some v)
    (hS : hemisphere ≠ "S".toList) (hW : hemisphere ≠ "W".toList) :
    ConvertToDecimalDegrees coord hemisphere =
      (toInt (v / 100) : ℚ) + (v - (wrapInt (toInt (v / 100) * 100) : ℚ)) / 60 := by
  have hl : ¬ coord.length < 4 := by omega
  unfold ConvertToDecimalDegrees
  rw [if_neg hl]
  simp only [hv]
  rw [if_neg (not_or.2 ⟨hS, hW⟩)]

/-- The number the coordinate `4807.038` denotes. -/
theorem ToDouble_4807 : ToDouble "4807.038".toList = some (4807038 / 1000) := by
  have h : strtod (cstr "4807.038".toList) = Strtod.finite (4807038) 10 (-3) [] := by decide
  have hv : litValue (4807038) 10 (-3) = 4807038 / 1000 := by
    unfold litValue
    norm_num
  rw [ToDouble_of_strtod _ _ _ _ h (by
    rw [hv]
    exact ERANGE_of_ordinary _ (Or.inr (by norm_num [abs_of_nonneg, abs_of_neg]))
      (by norm_num [abs_of_nonneg, abs_of_neg])), hv]

/-- The number the coordinate `01131.000` denotes. -/
theorem ToDouble_01131 : ToDouble "01131.000".toList = some (1131) := by
  have h : strtod (cstr "01131.000".toList) = Strtod.finite (1131000) 10 (-3) [] := by decide
  have hv : litValue (1131000) 10 (-3) = 1131 := by
    unfold litValue
    norm_num
  rw [ToDouble_of_strtod _ _ _ _ h (by
    rw [hv]
    exact ERANGE_of_ordinary _ (Or.inr (by norm_num [abs_of_nonneg, abs_of_neg]))
      (by norm_num [abs_of_nonneg, abs_of_neg])), hv]

/-- The number the string `10000000000` denotes. -/
theorem ToDouble_1e10 : ToDouble "10000000000".toList = some (10000000000) := by
  have h : strtod (cstr "10000000000".toList) = Strtod.finite (10000000000) 10 (0) [] := by decide
  have hv : litValue (10000000000) 10 (0) = 10000000000 := by
    unfold litValue
    norm_num
  rw [ToDouble_of_strtod _ _ _ _ h (by
    rw [hv]
    exact ERANGE_of_ordinary _ (Or.inr (by norm_num [abs_of_nonneg, abs_of_neg]))
      (by norm_num [abs_of_nonneg, abs_of_neg])), hv]

/-- An entry that has just been assigned is the one found under its key. -/
theorem Lookup_UpdateMobilePosition (mobileId : wxString) (info : MobileInfo) (store : Store) :
    Lookup mobileId (UpdateMobilePosition mobileId info store) = some info := by
  induction store with
  | nil => simp [UpdateMobilePosition, Lookup]
  | cons e rest ih =>
    obtain ⟨k, v⟩ := e
    by_cases hk : k = mobileId
    · simp [UpdateMobilePosition, Lookup, hk]
    · simp [UpdateMobilePosition, Lookup, hk, ih]

/-- An accepted sentence is parsed into the local `mobile`, which is then
copied into the table. -/
theorem HandleSentence_accept (m_mobileId : wxString) (now : wxDateTime) (line : wxString)
    (mobile m : MobileInfo) (store : Store)
    (h : ParseNMEASentence now line mobile = some (true, m)) :
    HandleSentence m_mobileId now line (mobile, store)
      = some (m, UpdateMobilePosition m_mobileId m store) := by
  simp [HandleSentence, h]

/-- The number the field `022.4` denotes. -/
theorem ToDouble_0224 : ToDouble "022.4".toList = some (224 / 10) := by
  have h : strtod (cstr "022.4".toList) = Strtod.finite (224) 10 (-1) [] := by decide
  have hv : litValue (224) 10 (-1) = 224 / 10 := by
    unfold litValue
    norm_num
  rw [ToDouble_of_strtod _ _ _ _ h (by
    rw [hv]
    exact ERANGE_of_ordinary _ (Or.inr (by norm_num [abs_of_nonneg, abs_of_neg]))
      (by norm_num [abs_of_nonneg, abs_of_neg])), hv]

/-- The number the field `084.4` denotes. -/
theorem ToDouble_0844 : ToDouble "084.4".toList = some (844 / 10) := by
  have h : strtod (cstr "084.4".toList) = Strtod.finite (844) 10 (-1) [] := by decide
  have hv : litValue (844) 10 (-1) = 844 / 10 := by
    unfold litValue
    norm_num
  rw [ToDouble_of_strtod _ _ _ _ h (by
    rw [hv]
    exact ERANGE_of_ordinary _ (Or.inr (by norm_num [abs_of_nonneg, abs_of_neg]))
      (by norm_num [abs_of_nonneg, abs_of_neg])), hv]

/-- A found character lies within the string. -/
theorem Find_lt (ch : Char) : ∀ (x : wxString) (p : Nat), Find ch x = some p → p < x.length
  | [], p, h => by simp [Find] at h
  | c :: cs, p, h => by
    unfold Find at h
    split at h
    · cases h; simp
    · cases hr : Find ch cs with
      | none => simp [hr] at h
      | some r =>
        simp [hr] at h
        subst h
        have := Find_lt ch cs r hr
        simp only [List.length_cons]
        omega

/-- A character found in a string is found at the same place when text is
appended. -/
theorem Find_append (ch : Char) (y : wxString) :
    ∀ (x : wxString) (p : Nat), Find ch x = some p → Find ch (x ++ y) = some p
  | [], p, h => by simp [Find] at h
  | c :: cs, p, h => by
    unfold Find at h
    rw [List.cons_append]
    unfold Find
    split at h
    · rename_i hc
      rw [if_pos hc]; exact h
    · rename_i hc
      rw [if_neg hc]
      cases hr : Find ch cs with
      | none => simp [hr] at h
      | some r =>
        rw [Find_append ch y cs r hr]
        rw [hr] at h
        exact h

/-- The text up to and including a found character ends with it. -/
theorem Find_take (ch : Char) :
    ∀ (x : wxString) (p : Nat), Find ch x = some p → x.take (p + 1) = x.take p ++ [ch]
  | [], p, h => by simp [Find] at h
  | c :: cs, p, h => by
    unfold Find at h
    split at h
    · rename_i hc
      cases h; simp [hc]
    · cases hr : Find ch cs with
      | none => simp [hr] at h
      | some r =>
        simp [hr] at h
        subst h
        simp [Find_take ch cs r hr]

/-- A string without the character has no place for it. -/
theorem Find_eq_none (ch : Char) : ∀ x : wxString, Find ch x = none ↔ ch ∉ x
  | [] => by simp [Find]
  | c :: cs => by
    unfold Find
    by_cases hc : c = ch
    · simp [hc]
    · have := Find_eq_none ch cs
      simp [hc, this, Ne.symm hc]

/-- Fuel beyond the length of the buffer does not change the inner loop. -/
theorem ProcessLines_fuel {σ : Type} (handle : wxString → σ → σ) :
    ∀ (n m : Nat) (x : wxString) (st : σ), x.length ≤ n → x.length ≤ m →
      ProcessLines handle n x st = ProcessLines handle m x st
  | 0, 0, _, _, _, _ => rfl
  | 0, m + 1, x, st, hn, _ => by
    have hx : x = [] := List.length_eq_zero.1 (Nat.le_zero.1 hn)
    subst hx
    simp [ProcessLines, Find]
  | n + 1, 0, x, st, _, hm => by
    have hx : x = [] := List.length_eq_zero.1 (Nat.le_zero.1 hm)
    subst hx
    simp [ProcessLines, Find]
  | n + 1, m + 1, x, st, hn, hm => by
    unfold ProcessLines
    cases hf : Find '\n' x with
    | none => rfl
    | some p =>
      have hp := Find_lt '\n' x p hf
      simp only
      apply ProcessLines_fuel handle n m
      · simp only [Mid, List.length_drop]; omega
      · simp only [Mid, List.length_drop]; omega

/-- The inner loop run on a buffer to which text is appended continues from
where the loop run on the buffer alone has stopped. -/
theorem ProcessLines_append {σ : Type} (handle : wxString → σ → σ) (y : wxString) :
    ∀ (n : Nat) (x : wxString) (st : σ), x.length ≤ n →
      ProcessLines handle (x ++ y).length (x ++ y) st =
        ProcessLines handle ((ProcessLines handle n x st).1 ++ y).length
          ((ProcessLines handle n x st).1 ++ y) (ProcessLines handle n x st).2
  | 0, x, st, hn => by
    have hx : x = [] := List.length_eq_zero.1 (Nat.le_zero.1 hn)
    subst hx
    simp [ProcessLines]
  | n + 1, x, st, hn => by
    cases hf : Find '\n' x with
    | none => simp [ProcessLines, hf]
    | some p =>
      have hp := Find_lt '\n' x p hf
      have hfy := Find_append '\n' y x p hf
      have hlen : (x ++ y).length = (x ++ y).length - 1 + 1 := by
        simp only [List.length_append]; omega
      have htake : Left (x ++ y) p = Left x p := by
        simp only [Left]; exact List.take_append_of_le_length (by omega)
      have hdrop : Mid (x ++ y) (p + 1) = Mid x (p + 1) ++ y := by
        simp only [Mid]; exact List.drop_append_of_le_length (by omega)
      have hstep : ProcessLines handle (n + 1) x st =
          ProcessLines handle n (Mid x (p + 1))
            (if StartsWith (Trim (Left x p)) "$".toList then handle (Trim (Left x p)) st
              else st) := by
        simp [ProcessLines, hf]
      rw [hstep, hlen]
      rw [show ProcessLines handle ((x ++ y).length - 1 + 1) (x ++ y) st =
          ProcessLines handle ((x ++ y).length - 1) (Mid x (p + 1) ++ y)
            (if StartsWith (Trim (Left x p)) "$".toList then handle (Trim (Left x p)) st
              else st) by simp [ProcessLines, hfy, htake, hdrop]]
      rw [ProcessLines_fuel handle ((x ++ y).length - 1) (Mid x (p + 1) ++ y).length _ _
        (by simp only [Mid, List.length_append, List.length_drop]; omega) (le_refl _)]
      exact ProcessLines_append handle y n (Mid x (p + 1)) _
        (by simp only [Mid, List.length_drop]; omega)

/-- What the inner loop leaves in the buffer: the text after the last newline. -/
theorem ProcessLines_pending {σ : Type} (handle : wxString → σ → σ) :
    ∀ (n : Nat) (x : wxString) (st : σ), x.length ≤ n →
      '\n' ∉ (ProcessLines handle n x st).1 ∧
      ∃ pre, x = pre ++ (ProcessLines handle n x st).1 ∧
        (pre = [] ∨ pre.getLast? = some '\n')
  | 0, x, st, hn => by
    have hx : x = [] := List.length_eq_zero.1 (Nat.le_zero.1 hn)
    subst hx
    simp [ProcessLines]
  | n + 1, x, st, hn => by
    cases hf : Find '\n' x with
    | none =>
      have hno := (Find_eq_none '\n' x).1 hf
      simp only [ProcessLines, hf]
      exact ⟨hno, [], rfl, Or.inl rfl⟩
    | some p =>
      have hp := Find_lt '\n' x p hf
      have hstep : ProcessLines handle (n + 1) x st =
          ProcessLines handle n (Mid x (p + 1))
            (if StartsWith (Trim (Left x p)) "$".toList then handle (Trim (Left x p)) st
              else st) := by
        simp [ProcessLines, hf]
      rw [hstep]
      obtain ⟨h1, pre, h2, h3⟩ := ProcessLines_pending handle n (Mid x (p + 1))
        (if StartsWith (Trim (Left x p)) "$".toList then handle (Trim (Left x p)) st else st)
        (by simp only [Mid, List.length_drop]; omega)
      refine ⟨h1, x.take (p + 1) ++ pre, ?_, Or.inr ?_⟩
      · rw [List.append_assoc, ← h2]
        simp [Mid]
      · rcases h3 with h3 | h3
        · subst h3
          rw [List.append_nil, Find_take '\n' x p hf]
          simp
        · rw [List.getLast?_append, h3]
          simp

/-- The three outcomes of `ParseGGA`, none of which depends on the clock or on
the `MobileInfo` passed in: a read past the end of the fields, a rejection
that changes nothing, or an acceptance that sets `isValid`. -/
theorem ParseGGA_cases (s : wxString) :
    (∀ t m, ParseGGA t s m = none) ∨
    (∀ t m, ParseGGA t s m = some (false, m)) ∨
    (∀ t m, ∃ r, ParseGGA t s m = some (true, r) ∧ r.isValid = true) := by
  by_cases h6 : (wxSplit s ',').length < 6
  · exact Or.inr (Or.inl fun t m => ParseGGA_short t s m h6)
  · by_cases h7 : 7 ≤ (wxSplit s ',').length
    · obtain ⟨f0, f1, f2, f3, f4, f5, f6, rest, hf⟩ := seven_fields _ h7
      cases hq : ToLong f6 with
      | none =>
        exact Or.inr (Or.inl fun t m => ParseGGA_reject_none t s m _ _ _ _ _ _ _ _ hf hq)
      | some q =>
        by_cases h0 : q = 0
        · subst h0
          exact Or.inr (Or.inl fun t m => ParseGGA_reject_zero t s m _ _ _ _ _ _ _ _ hf hq)
        · exact Or.inr (Or.inr fun t m =>
            ⟨_, ParseGGA_accept t s m _ _ _ _ _ _ _ _ q hf hq h0, rfl⟩)
    · obtain ⟨a0, a1, a2, a3, a4, a5, hf⟩ := six_fields (wxSplit s ',') (by omega)
      exact Or.inl fun t m => by simp [ParseGGA, hf, Item]

/-- The two outcomes of `ParseRMC`: a rejection that changes nothing, or an
acceptance that sets `isValid`. -/
theorem ParseRMC_cases (s : wxString) :
    (∀ t m, ParseRMC t s m = some (false, m)) ∨
    (∀ t m, ∃ r, ParseRMC t s m = some (true, r) ∧ r.isValid = true) := by
  by_cases h9 : (wxSplit s ',').length < 9
  · exact Or.inl fun t m => ParseRMC_short t s m h9
  · obtain ⟨f0, f1, f2, f3, f4, f5, f6, f7, f8, rest, hf⟩ :=
      nine_fields (wxSplit s ',') (by omega)
    by_cases hA : f2 = "A".toList
    · subst hA
      exact Or.inr fun t m => ⟨_, ParseRMC_accept t s m _ _ _ _ _ _ _ _ _ hf, rfl⟩
    · exact Or.inl fun t m => ParseRMC_reject t s m _ _ _ _ hf hA

/-- The three outcomes of `ParseNMEASentence`. -/
theorem ParseNMEASentence_cases (s : wxString) :
    (∀ t m, ParseNMEASentence t s m = none) ∨
    (∀ t m, ParseNMEASentence t s m = some (false, m)) ∨
    (∀ t m, ∃ r, ParseNMEASentence t s m = some (true, r) ∧ r.isValid = true) := by
  unfold ParseNMEASentence
  by_cases hg : Contains s "GGA".toList = true
  · simp only [hg, if_true]
    exact ParseGGA_cases s
  · by_cases hr : Contains s "RMC".toList = true
    · simp only [hg, hr, if_true, if_false]
      exact Or.inr (ParseRMC_cases s)
    · simp only [hg, hr, if_false]
      exact Or.inr (Or.inl fun _ _ => rfl)

/-- The validity flag after a sequence of sentences: it is set when it was set
before or when some sentence of the sequence is accepted. -/
theorem ParseAll_isValid :
    ∀ (seq : List (wxDateTime × wxString)) (mobile r : MobileInfo),
      ParseAll seq mobile = some r →
      (r.isValid = true ↔ mobile.isValid = true ∨
        ∃ p ∈ seq, ∃ m, ParseNMEASentence p.1 p.2 MobileInfo.new = some (true, m))
  | [], mobile, r, h => by
    simp only [ParseAll, Option.some.injEq] at h
    subst h
    simp
  | (t, s) :: rest, mobile, r, h => by
    rcases ParseNMEASentence_cases s with hn | hrej | hacc
    · simp [ParseAll, hn] at h
    · simp only [ParseAll, hrej] at h
      have ih := ParseAll_isValid rest mobile r h
      rw [ih]
      constructor
      · rintro (hv | ⟨p, hp, m, hm⟩)
        · exact Or.inl hv
        · exact Or.inr ⟨p, List.mem_cons_of_mem _ hp, m, hm⟩
      · rintro (hv | ⟨p, hp, m, hm⟩)
        · exact Or.inl hv
        · rcases List.mem_cons.1 hp with rfl | hp
          · rw [hrej] at hm
            simp at hm
          · exact Or.inr ⟨p, hp, m, hm⟩
    · obtain ⟨m1, hm1, hv1⟩ := hacc t mobile
      simp only [ParseAll, hm1] at h
      have ih := ParseAll_isValid rest m1 r h
      obtain ⟨m0, hm0, _⟩ := hacc t MobileInfo.new
      constructor
      · intro _
        exact Or.inr ⟨(t, s), List.mem_cons_self _ _, m0, hm0⟩
      · intro _
        exact ih.2 (Or.inl hv1)

/-- A text without newline has no complete line. -/
theorem SpecLines_of_Find_none :
    ∀ x : wxString, Find '\n' x = none → SpecLines x = ([], x)
  | [], _ => rfl
  | c :: cs, h => by
    unfold Find at h
    by_cases hc : c = '\n'
    · simp [hc] at h
    · rw [if_neg hc] at h
      have hr : Find '\n' cs = none := by
        cases hr : Find '\n' cs with
        | none => rfl
        | some r => simp [hr] at h
      simp [SpecLines, hc, SpecLines_of_Find_none cs hr]

/-- The first complete line of a text ends at its first newline. -/
theorem SpecLines_of_Find_some :
    ∀ (x : wxString) (p : Nat), Find '\n' x = some p →
      SpecLines x = (Left x p :: (SpecLines (Mid x (p + 1))).1, (SpecLines (Mid x (p + 1))).2)
  | [], p, h => by simp [Find] at h
  | c :: cs, p, h => by
    unfold Find at h
    by_cases hc : c = '\n'
    · rw [if_pos hc] at h
      cases h
      simp [SpecLines, hc, Left, Mid]
    · rw [if_neg hc] at h
      cases hr : Find '\n' cs with
      | none => simp [hr] at h
      | some r =>
        simp [hr] at h
        subst h
        have ih := SpecLines_of_Find_some cs r hr
        simp [SpecLines, hc, ih, Left, Mid]

/-- The inner loop against the specification: the buffer becomes the text
after the last newline, and the handler receives, in order, the complete
lines trimmed on the right that start with a dollar sign. -/
theorem ProcessLines_eq_spec {σ : Type} (handle : wxString → σ → σ) :
    ∀ (n : Nat) (x : wxString) (st : σ), x.length ≤ n →
      ProcessLines handle n x st =
        ((SpecLines x).2,
          (((SpecLines x).1.map Trim).filter (fun l => StartsWith l "$".toList)).foldl
            (fun s l => handle l s) st)
  | 0, x, st, hn => by
    have hx : x = [] := List.length_eq_zero.1 (Nat.le_zero.1 hn)
    subst hx
    simp [ProcessLines, SpecLines]
  | n + 1, x, st, hn => by
    cases hf : Find '\n' x with
    | none => simp [ProcessLines, hf, SpecLines_of_Find_none x hf]
    | some p =>
      have hp := Find_lt '\n' x p hf
      have ih := ProcessLines_eq_spec handle n (Mid x (p + 1))
        (if StartsWith (Trim (Left x p)) "$".toList then handle (Trim (Left x p)) st else st)
        (by simp only [Mid, List.length_drop]; omega)
      simp only [ProcessLines, hf, ih, SpecLines_of_Find_some x p hf, List.map_cons]
      by_cases hs : StartsWith (Trim (Left x p)) ['$'] = true
      · simp [List.filter_cons, hs]
      · simp [List.filter_cons, hs]

/-- What `Trim` removes is white space at the end, and what it leaves does not
end with white space. -/
theorem Trim_spec (line : wxString) :
    ∃ ws, line = Trim line ++ ws ∧ (∀ c ∈ ws, isspace c = true) ∧
      ∀ c, (Trim line).getLast? = some c → isspace c = false := by
  refine ⟨(line.reverse.takeWhile isspace).reverse, ?_, ?_, ?_⟩
  · unfold Trim
    rw [← List.reverse_append, List.takeWhile_append_dropWhile, List.reverse_reverse]
  · intro c hc
    exact List.mem_takeWhile_imp (List.mem_reverse.1 hc)
  · intro c hc
    unfold Trim at hc
    rw [List.getLast?_reverse] at hc
    have := List.head?_dropWhile_not isspace line.reverse
    rw [hc] at this
    simpa using this

/-- The cast to `int` of a number that is not positive and whose integer part
fits is that number rounded up, toward zero. -/
theorem toInt_of_nonpos (x : ℚ) (h0 : x ≤ 0) (hr : INT_MIN ≤ ⌈x⌉) : toInt x = ⌈x⌉ := by
  have hx : 0 ≤ -x := neg_nonneg.2 h0
  have hn : (0 : Int) ≤ (-x).num := Rat.num_nonneg.2 hx
  have hd : (0 : Int) ≤ ((-x).den : Int) := Int.ofNat_nonneg _
  have hfl : Int.tdiv (-x).num (-x).den = ⌊-x⌋ := by
    rw [Int.tdiv_eq_ediv hn hd, Rat.floor_def]
  have ht : Int.tdiv x.num x.den = ⌈x⌉ := by
    have h1 : x.num = -(-x).num := by simp
    have h2 : x.den = (-x).den := by simp
    rw [h1, Int.neg_tdiv, h2, hfl, Int.floor_neg, neg_neg]
  have hc : ⌈x⌉ ≤ 0 := Int.ceil_le.2 (by simpa using h0)
  unfold toInt
  simp only [ht]
  rw [if_pos]
  refine ⟨hr, ?_⟩
  unfold INT_MAX
  omega

/-- The number the string `-4807.038` denotes. -/
theorem ToDouble_neg4807 : ToDouble "-4807.038".toList = some (-(4807038 / 1000)) := by
  have h : strtod (cstr "-4807.038".toList) = Strtod.finite (-4807038) 10 (-3) [] := by decide
  have hv : litValue (-4807038) 10 (-3) = -(4807038 / 1000) := by
    unfold litValue
    norm_num
  rw [ToDouble_of_strtod _ _ _ _ h (by
    rw [hv]
    exact ERANGE_of_ordinary _ (Or.inr (by norm_num [abs_of_nonneg, abs_of_neg]))
      (by norm_num [abs_of_nonneg, abs_of_neg])), hv]

/-- A string that `ToDouble` converts is one for which it returns true. -/
theorem ToDoubleReturn_of_ToDouble (s : wxString) (v : ℚ) (h : ToDouble s = some v) :
    ToDoubleReturn s = true := by
  cases hr : ToDoubleReturn s with
  | true => rfl
  | false => rw [ToDouble_of_return_false s hr] at h; cases h

/-- The hexadecimal literal `0x10` is read as sixteen. -/
theorem ToDouble_hex16 : ToDouble "0x10".toList = some 16 := by
  have h : strtod (cstr "0x10".toList) = Strtod.finite 16 2 0 [] := by decide
  have hv : litValue 16 2 0 = 16 := by
    unfold litValue
    norm_num
  rw [ToDouble_of_strtod _ _ _ _ h (by
    rw [hv]
    exact ERANGE_of_ordinary _ (Or.inr (by norm_num [abs_of_nonneg]))
      (by norm_num [abs_of_nonneg])), hv]

/-- The coordinate `0x10` is converted like any other number: no degree and
sixteen minutes. -/
theorem ConvertToDecimalDegrees_hex16 :
    ConvertToDecimalDegrees "0x10".toList "N".toList = 16 / 60 := by
  have hfl : ⌊(16 : ℚ) / 100⌋ = 0 := by
    rw [Int.floor_eq_iff]; norm_num
  have hti : toInt ((16 : ℚ) / 100) = 0 := by
    rw [toInt_of_nonneg _ (by norm_num) (by rw [hfl]; decide), hfl]
  have hw : wrapInt (0 * 100) = 0 := by decide
  rw [ConvertToDecimalDegrees_of_parse _ _ _ (by decide) ToDouble_hex16 (by decide)
    (by decide), hti, hw]
  norm_num

/-- The call of `ToDouble` on `1e999` returns false: the number is beyond the
range of `double`. -/
theorem ToDoubleReturn_1e999 : ToDoubleReturn "1e999".toList = false := by
  have h : strtod (cstr "1e999".toList) = Strtod.finite 1 10 999 [] := by decide
  have hE : ERANGE (litValue 1 10 999) = true := by
    unfold ERANGE litValue DBL_OVERFLOW
    simp only [Bool.or_eq_true, decide_eq_true_eq]
    left
    norm_num [abs_of_nonneg]
  unfold ToDoubleReturn
  rw [h]
  simp [hE]

/-- A number followed by other text is stored although the call of `ToDouble`
returns false. -/
theorem ToDoubleOut_trailing (x : ℚ) :
    ToDoubleReturn "12.5kn".toList = false ∧ ToDoubleOut "12.5kn".toList x = 25 / 2 := by
  have h : strtod (cstr "12.5kn".toList) = Strtod.finite 125 10 (-1) "kn".toList := by decide
  have hv : litValue 125 10 (-1) = 25 / 2 := by
    unfold litValue
    norm_num
  have hE : ERANGE (litValue 125 10 (-1)) = false := by
    rw [hv]
    exact ERANGE_of_ordinary _ (Or.inr (by norm_num [abs_of_nonneg]))
      (by norm_num [abs_of_nonneg])
  refine ⟨by decide, ?_⟩
  unfold ToDoubleOut
  rw [h]
  simp only
  rw [if_neg (by rw [hE]; simp), hv]

/-- The call of `ToDouble` on `48o7.038` returns false: a letter follows the
digits read. -/
theorem ToDoubleReturn_48o7 : ToDoubleReturn "48o7.038".toList = false := by decide

/-! ## Claims -/

/-- C1: a GGA sentence of at least seven comma-delimited fields is accepted by
`ParseGGA` exactly when field 6 parses as an integer and that integer is not
zero, and a rejected sentence leaves the `MobileInfo` unchanged; in particular
a sentence with quality `0` is rejected and the same sentence with quality `1`
is accepted. -/
theorem ParseGGA_accepts_iff_quality (now : wxDateTime) (sentence : wxString)
    (mobile : MobileInfo) (h : 7 ≤ (wxSplit sentence ',').length) :
    (∃ ok m, ParseGGA now sentence mobile = some (ok, m) ∧
      (ok = true ↔ ∃ f6 q, Item (wxSplit sentence ',') 6 = some f6 ∧
        ToLong f6 = some q ∧ q ≠ 0) ∧
      (ok = false → m = mobile)) ∧
    ParseGGA now
      "$GPGGA,123519,4807.038,N,01131.000,E,0,08,0.9,545.4,M,46.9,M,,*47".toList mobile
      = some (false, mobile) ∧
    ∃ m, ParseGGA now
      "$GPGGA,123519,4807.038,N,01131.000,E,1,08,0.9,545.4,M,46.9,M,,*47".toList mobile
      = some (true, m) := by
  refine ⟨?_, ?_, ?_⟩
  · obtain ⟨f0, f1, f2, f3, f4, f5, f6, rest, hf⟩ := seven_fields _ h
    cases hq : ToLong f6 with
    | none =>
      refine ⟨false, mobile, ParseGGA_reject_none now sentence mobile _ _ _ _ _ _ _ _ hf hq, ?_, ?_⟩
      · simp [hf, Item, hq]
      · intro _; rfl
    | some q =>
      by_cases h0 : q = 0
      · subst h0
        refine ⟨false, mobile,
          ParseGGA_reject_zero now sentence mobile _ _ _ _ _ _ _ _ hf hq, ?_, ?_⟩
        · simp [hf, Item, hq]
        · intro _; rfl
      · refine ⟨true, _, ParseGGA_accept now sentence mobile _ _ _ _ _ _ _ _ q hf hq h0, ?_, ?_⟩
        · simp [hf, Item, hq, h0]
        · intro hc; cases hc
  · have hf : wxSplit
        "$GPGGA,123519,4807.038,N,01131.000,E,0,08,0.9,545.4,M,46.9,M,,*47".toList ',' =
        ["$GPGGA".toList, "123519".toList, "4807.038".toList, "N".toList, "01131.000".toList,
          "E".toList, "0".toList, "08".toList, "0.9".toList, "545.4".toList, "M".toList,
          "46.9".toList, "M".toList, [], "*47".toList] := by decide
    exact ParseGGA_reject_zero now _ mobile _ _ _ _ _ _ _ _ hf (by decide)
  · have hf : wxSplit
        "$GPGGA,123519,4807.038,N,01131.000,E,1,08,0.9,545.4,M,46.9,M,,*47".toList ',' =
        ["$GPGGA".toList, "123519".toList, "4807.038".toList, "N".toList, "01131.000".toList,
          "E".toList, "1".toList, "08".toList, "0.9".toList, "545.4".toList, "M".toList,
          "46.9".toList, "M".toList, [], "*47".toList] := by decide
    exact ⟨_, ParseGGA_accept now _ mobile _ _ _ _ _ _ _ _ 1 hf (by decide) (by decide)⟩

/-- C1, at a sentence of fifteen fields. -/
theorem ParseGGA_accepts_iff_quality_witness :
    7 ≤ (wxSplit
      "$GPGGA,123519,4807.038,N,01131.000,E,1,08,0.9,545.4,M,46.9,M,,*47".toList ',').length ∧
    ∃ ok m, ParseGGA 1000
      "$GPGGA,123519,4807.038,N,01131.000,E,1,08,0.9,545.4,M,46.9,M,,*47".toList
      MobileInfo.new = some (ok, m) ∧
      (ok = true ↔ ∃ f6 q, Item (wxSplit
        "$GPGGA,123519,4807.038,N,01131.000,E,1,08,0.9,545.4,M,46.9,M,,*47".toList ',') 6
          = some f6 ∧ ToLong f6 = some q ∧ q ≠ 0) ∧
      (ok = false → m = MobileInfo.new) :=
  ⟨by decide, (ParseGGA_accepts_iff_quality 1000 _ MobileInfo.new (by decide)).1⟩

/-- C2: an RMC sentence of at least nine fields whose status field is not
exactly `A` makes `ParseRMC` return false and leaves every field of the
`MobileInfo` as it was, whatever the other fields hold. -/
theorem ParseRMC_void_yields_nothing (now : wxDateTime) (sentence : wxString)
    (mobile : MobileInfo) (h : 9 ≤ (wxSplit sentence ',').length)
    (hst : Item (wxSplit sentence ',') 2 ≠ some "A".toList) :
    ParseRMC now sentence mobile = some (false, mobile) := by
  obtain ⟨f0, f1, f2, f3, f4, f5, f6, f7, f8, rest, hf⟩ := nine_fields _ h
  refine ParseRMC_reject now sentence mobile f0 f1 f2 _ hf ?_
  intro hA
  apply hst
  simp [hf, Item, hA]

/-- C2, at a sentence of status `V` with every other field populated. -/
theorem ParseRMC_void_yields_nothing_witness :
    9 ≤ (wxSplit
      "$GPRMC,123519,V,4807.038,N,01131.000,E,022.4,084.4,230394,003.1,W*6A".toList ',').length ∧
    Item (wxSplit
      "$GPRMC,123519,V,4807.038,N,01131.000,E,022.4,084.4,230394,003.1,W*6A".toList ',') 2
      = some "V".toList ∧
    ParseRMC 1000
      "$GPRMC,123519,V,4807.038,N,01131.000,E,022.4,084.4,230394,003.1,W*6A".toList
      MobileInfo.new = some (false, MobileInfo.new) :=
  ⟨by decide, by decide,
    ParseRMC_void_yields_nothing 1000 _ MobileInfo.new (by decide) (by decide)⟩

/-- C3: `ConvertToDecimalDegrees` gives the same result for the hemispheres
`S` and `W`, and that result is the opposite of the one it gives for any
other hemisphere. -/
theorem ConvertToDecimalDegrees_sign (coord hemisphere : wxString)
    (hS : hemisphere ≠ "S".toList) (hW : hemisphere ≠ "W".toList) :
    ConvertToDecimalDegrees coord "S".toList = ConvertToDecimalDegrees coord "W".toList ∧
    ConvertToDecimalDegrees coord "W".toList = -ConvertToDecimalDegrees coord hemisphere := by
  unfold ConvertToDecimalDegrees
  split
  · simp
  · cases ToDouble coord with
    | none => simp
    | some v =>
      have hS2 : hemisphere ≠ ['S'] := hS
      have hW2 : hemisphere ≠ ['W'] := hW
      simp only [String.toList, true_or, or_true, if_true]
      rw [if_neg (by simp [hS2, hW2])]
      simp

/-- C3, at the coordinate `4807.038` and the hemisphere `N`. -/
theorem ConvertToDecimalDegrees_sign_witness :
    ConvertToDecimalDegrees "4807.038".toList "S".toList
      = ConvertToDecimalDegrees "4807.038".toList "W".toList ∧
    ConvertToDecimalDegrees "4807.038".toList "W".toList
      = -ConvertToDecimalDegrees "4807.038".toList "N".toList :=
  ConvertToDecimalDegrees_sign _ _ (by decide) (by decide)

/-- C4 as stated fails: the coordinate `10000000000` has more than four
characters and denotes a non-negative number whose hundredth fits an `int`,
yet for the hemisphere `N` the result is not `⌊v/100⌋ + (v - 100⌊v/100⌋)/60`,
because the product `degrees * 100` leaves the range of `int`. -/
theorem ConvertToDecimalDegrees_formula_fails :
    4 ≤ "10000000000".toList.length ∧
    ToDouble "10000000000".toList = some 10000000000 ∧
    (0 : ℚ) ≤ 10000000000 ∧
    INT_MIN ≤ ⌊(10000000000 : ℚ) / 100⌋ ∧ ⌊(10000000000 : ℚ) / 100⌋ ≤ INT_MAX ∧
    ConvertToDecimalDegrees "10000000000".toList "N".toList ≠
      (⌊(10000000000 : ℚ) / 100⌋ : ℚ)
        + (10000000000 - 100 * (⌊(10000000000 : ℚ) / 100⌋ : ℚ)) / 60 := by
  have hfl : ⌊(10000000000 : ℚ) / 100⌋ = 100000000 := by
    rw [Int.floor_eq_iff]; norm_num
  have hti : toInt ((10000000000 : ℚ) / 100) = 100000000 := by
    rw [toInt_of_nonneg _ (by norm_num) (by rw [hfl]; decide), hfl]
  have hw : wrapInt (100000000 * 100) = 1410065408 := by decide
  refine ⟨by decide, ToDouble_1e10, by norm_num, by rw [hfl]; decide, by rw [hfl]; decide, ?_⟩
  rw [ConvertToDecimalDegrees_of_parse _ _ _ (by decide) ToDouble_1e10 (by decide) (by decide),
    hti, hw, hfl]
  norm_num

/-- C4, amended: for a coordinate of at least four characters that parses as a
non-negative number `v` with `100 * ⌊v/100⌋` within the range of `int`, and a
hemisphere other than `S` and `W`, `ConvertToDecimalDegrees` returns
`⌊v/100⌋ + (v - 100⌊v/100⌋)/60`; the results for `4807.038 N` and
`01131.000 E` are within `1e-4` of `48.1173` and `11.5167`. -/
theorem ConvertToDecimalDegrees_formula (coord hemisphere : wxString) (v : ℚ)
    (hlen : 4 ≤ coord.length) (hv : ToDouble coord = some v) (h0 : 0 ≤ v)
    (hr : 100 * ⌊v / 100⌋ ≤ INT_MAX)
    (hS : hemisphere ≠ "S".toList) (hW : hemisphere ≠ "W".toList) :
    ConvertToDecimalDegrees coord hemisphere =
      (⌊v / 100⌋ : ℚ) + (v - 100 * (⌊v / 100⌋ : ℚ)) / 60 ∧
    |ConvertToDecimalDegrees "4807.038".toList "N".toList - 481173 / 10000| ≤ 1 / 10000 ∧
    |ConvertToDecimalDegrees "01131.000".toList "E".toList - 115167 / 10000| ≤ 1 / 10000 := by
  have key : ∀ (c h : wxString) (w : ℚ), 4 ≤ c.length → ToDouble c = some w → 0 ≤ w →
      100 * ⌊w / 100⌋ ≤ INT_MAX → h ≠ "S".toList → h ≠ "W".toList →
      ConvertToDecimalDegrees c h = (⌊w / 100⌋ : ℚ) + (w - 100 * (⌊w / 100⌋ : ℚ)) / 60 := by
    intro c h w hl hw hw0 hwr hs hws
    have hf0 : (0 : Int) ≤ ⌊w / 100⌋ := Int.floor_nonneg.2 (by positivity)
    have hti : toInt (w / 100) = ⌊w / 100⌋ := toInt_of_nonneg _ (by positivity) (by omega)
    have hwrap : wrapInt (⌊w / 100⌋ * 100) = ⌊w / 100⌋ * 100 :=
      wrapInt_of_range _ (by unfold INT_MIN; omega) (by omega)
    rw [ConvertToDecimalDegrees_of_parse c h w hl hw hs hws, hti, hwrap]
    push_cast
    ring
  refine ⟨key coord hemisphere v hlen hv h0 hr hS hW, ?_, ?_⟩
  · have hfl : ⌊(4807038 / 1000 : ℚ) / 100⌋ = 48 := by
      rw [Int.floor_eq_iff]; norm_num
    rw [key _ _ _ (by decide) ToDouble_4807 (by norm_num) (by rw [hfl]; decide) (by decide)
      (by decide), hfl]
    rw [abs_le]; norm_num
  · have hfl : ⌊(1131 : ℚ) / 100⌋ = 11 := by
      rw [Int.floor_eq_iff]; norm_num
    rw [key _ _ _ (by decide) ToDouble_01131 (by norm_num) (by rw [hfl]; decide) (by decide)
      (by decide), hfl]
    rw [abs_le]; norm_num

/-- C4 amended, at the coordinate `4807.038` and the hemisphere `N`. -/
theorem ConvertToDecimalDegrees_formula_witness :
    ConvertToDecimalDegrees "4807.038".toList "N".toList =
      (⌊(4807038 / 1000 : ℚ) / 100⌋ : ℚ)
        + (4807038 / 1000 - 100 * (⌊(4807038 / 1000 : ℚ) / 100⌋ : ℚ)) / 60 :=
  (ConvertToDecimalDegrees_formula "4807.038".toList "N".toList (4807038 / 1000)
    (by decide) ToDouble_4807 (by norm_num)
    (by
      have hfl : ⌊(4807038 / 1000 : ℚ) / 100⌋ = 48 := by
        rw [Int.floor_eq_iff]; norm_num
      rw [hfl]; decide)
    (by decide) (by decide)).1

/-- C5: a reader thread starts from a fresh `MobileInfo`. Its first accepted
sentence carries a position: either it is routed to `ParseGGA` with a non-zero
quality, or it is routed to `ParseRMC` with status `A`; its latitude and
longitude pairs `la`, `lah`, `lo`, `loh` are not empty. Its next sentence is
an accepted RMC sentence with an empty latitude pair and an empty longitude
pair whose speed and course fields parse as `speed` and `course`. Whatever
the table holds before each of the two publications, after the second one the
entry of the mobile has the latitude and longitude of the first sentence, the
speed and course of the second, `isValid = true`, and the time of the second
as `lastUpdate`. -/
theorem position_then_speed_course (m_mobileId : wxString) (t1 t2 : wxDateTime)
    (s1 s2 : wxString) (store1 store2 : Store)
    (g0 g1 la lah lo loh q v7 v8 : wxString) (rest1 : List wxString) (n : Int)
    (r0 r1 f3 f4 f5 f6 sp co : wxString) (rest2 : List wxString) (speed course : ℚ)
    (hfirst :
      (Contains s1 "GGA".toList = true ∧
        wxSplit s1 ',' = g0 :: g1 :: la :: lah :: lo :: loh :: q :: rest1 ∧
        ToLong q = some n ∧ n ≠ 0) ∨
      (Contains s1 "GGA".toList = false ∧ Contains s1 "RMC".toList = true ∧
        wxSplit s1 ',' =
          g0 :: g1 :: "A".toList :: la :: lah :: lo :: loh :: v7 :: v8 :: rest1))
    (hla : la ≠ []) (hlah : lah ≠ []) (hlo : lo ≠ []) (hloh : loh ≠ [])
    (hgga : Contains s2 "GGA".toList = false) (hrmc : Contains s2 "RMC".toList = true)
    (hf2 : wxSplit s2 ',' = r0 :: r1 :: "A".toList :: f3 :: f4 :: f5 :: f6 :: sp :: co :: rest2)
    (hlat : f3 = [] ∨ f4 = []) (hlon : f5 = [] ∨ f6 = [])
    (hsp : ToDouble sp = some speed) (hco : ToDouble co = some course) :
    ∃ m1 st1 m2 st2 e,
      HandleSentence m_mobileId t1 s1 ((ReaderState.start m_mobileId store1).mobile, store1)
        = some (m1, st1) ∧
      Lookup m_mobileId st1 = some m1 ∧
      HandleSentence m_mobileId t2 s2 (m1, store2) = some (m2, st2) ∧
      Lookup m_mobileId st2 = some e ∧
      e.latitude = ConvertToDecimalDegrees la lah ∧
      e.longitude = ConvertToDecimalDegrees lo loh ∧
      e.speed = speed ∧ e.course = course ∧
      e.isValid = true ∧ e.lastUpdate = t2 := by
  have hout1 : ToDoubleOut sp = fun _ => speed := by
    funext x; exact ToDoubleOut_of_ToDouble sp speed x hsp
  have hout2 : ToDoubleOut co = fun _ => course := by
    funext x; exact ToDoubleOut_of_ToDouble co course x hco
  have hc1 : ¬ (f3 ≠ [] ∧ f4 ≠ []) := by
    rintro ⟨a, b⟩; rcases hlat with h | h
    · exact a h
    · exact b h
  have hc2 : ¬ (f5 ≠ [] ∧ f6 ≠ []) := by
    rintro ⟨a, b⟩; rcases hlon with h | h
    · exact a h
    · exact b h
  have second : ∀ m1 : MobileInfo, ParseNMEASentence t2 s2 m1 = some (true,
      { id := m1.id, name := m1.name, latitude := m1.latitude, longitude := m1.longitude,
        course := course, speed := speed, lastUpdate := t2, color := m1.color,
        isValid := true }) := by
    intro m1
    unfold ParseNMEASentence
    rw [hgga, hrmc]
    simp only [Bool.false_eq_true, if_false, if_true]
    rw [ParseRMC_accept t2 s2 m1 _ _ _ _ _ _ _ _ _ hf2, if_neg hc1, if_neg hc2, hout1, hout2]
  have first : ∃ m1, ParseNMEASentence t1 s1 (ReaderState.start m_mobileId store1).mobile
      = some (true, m1) ∧ m1.latitude = ConvertToDecimalDegrees la lah ∧
        m1.longitude = ConvertToDecimalDegrees lo loh := by
    rcases hfirst with ⟨hg, hf, hq, hn⟩ | ⟨hg, hr, hf⟩
    · have hp : ParseNMEASentence t1 s1 (ReaderState.start m_mobileId store1).mobile
          = ParseGGA t1 s1 (ReaderState.start m_mobileId store1).mobile := by
        unfold ParseNMEASentence
        rw [hg]
        simp only [if_true]
      rw [hp, ParseGGA_accept t1 s1 _ _ _ _ _ _ _ _ _ n hf hq hn]
      exact ⟨_, rfl, by simp [hla, hlah], by simp [hlo, hloh]⟩
    · have hp : ParseNMEASentence t1 s1 (ReaderState.start m_mobileId store1).mobile
          = ParseRMC t1 s1 (ReaderState.start m_mobileId store1).mobile := by
        unfold ParseNMEASentence
        rw [hg, hr]
        simp only [Bool.false_eq_true, if_false, if_true]
      rw [hp, ParseRMC_accept t1 s1 _ _ _ _ _ _ _ _ _ _ hf]
      exact ⟨_, rfl, by simp [hla, hlah], by simp [hlo, hloh]⟩
  obtain ⟨m1, hp1, hlat1, hlon1⟩ := first
  refine ⟨m1, _, _, _, _, HandleSentence_accept _ _ _ _ _ _ hp1,
    Lookup_UpdateMobilePosition _ _ _, HandleSentence_accept _ _ _ _ _ _ (second m1),
    Lookup_UpdateMobilePosition _ _ _, hlat1, hlon1, rfl, rfl, rfl, rfl⟩

/-- C5, at a GGA sentence followed by an RMC sentence without position. -/
theorem position_then_speed_course_witness :
    ∃ m1 st1 m2 st2 e,
      HandleSentence "M1".toList 1000 "$GPGGA,123519,4807.038,N,01131.000,E,1,08".toList
        ((ReaderState.start "M1".toList []).mobile, []) = some (m1, st1) ∧
      Lookup "M1".toList st1 = some m1 ∧
      HandleSentence "M1".toList 2000 "$GPRMC,123520,A,,,,,022.4,084.4".toList (m1, [])
        = some (m2, st2) ∧
      Lookup "M1".toList st2 = some e ∧
      e.latitude = ConvertToDecimalDegrees "4807.038".toList "N".toList ∧
      e.longitude = ConvertToDecimalDegrees "01131.000".toList "E".toList ∧
      e.speed = 224 / 10 ∧ e.course = 844 / 10 ∧
      e.isValid = true ∧ e.lastUpdate = 2000 :=
  position_then_speed_course "M1".toList 1000 2000
    "$GPGGA,123519,4807.038,N,01131.000,E,1,08".toList
    "$GPRMC,123520,A,,,,,022.4,084.4".toList [] []
    "$GPGGA".toList "123519".toList "4807.038".toList "N".toList "01131.000".toList "E".toList
    "1".toList [] [] ["08".toList] 1
    "$GPRMC".toList "123520".toList [] [] [] [] "022.4".toList "084.4".toList [] (224 / 10)
    (844 / 10)
    (Or.inl ⟨by decide, by decide, by decide, by decide⟩)
    (by decide) (by decide) (by decide) (by decide) (by decide) (by decide) (by decide)
    (Or.inl rfl) (Or.inl rfl) ToDouble_0224 ToDouble_0844

/-- C6: the sweep of `OnTimer` keeps an entry exactly when its `lastUpdate` is
not before `now` less thirty seconds, keeps the surviving entries as they
were and in their order, removes an entry last updated 31 seconds ago and
retains one last updated 29 seconds ago. -/
theorem OnTimer_removes_exactly_stale (now : wxDateTime) (m_mobiles : Store)
    (mobileId : wxString) (info : MobileInfo) :
    (∀ e : wxString × MobileInfo, e ∈ OnTimer now m_mobiles ↔
      e ∈ m_mobiles ∧ ¬ e.2.lastUpdate < now - Seconds 30) ∧
    (OnTimer now m_mobiles).Sublist m_mobiles ∧
    OnTimer now [(mobileId, { info with lastUpdate := now - Seconds 31 })] = [] ∧
    OnTimer now [(mobileId, { info with lastUpdate := now - Seconds 29 })]
      = [(mobileId, { info with lastUpdate := now - Seconds 29 })] := by
  refine ⟨?_, ?_, ?_, ?_⟩
  · intro e
    simp [OnTimer, List.mem_filter]
  · exact List.filter_sublist _
  · simp [OnTimer, Seconds]
  · simp [OnTimer, Seconds]

/-- C7: feeding a chunk `a` and then a chunk `b` to the framing loop hands the
same lines, in the same order, to the handler as feeding `a ++ b` at once,
and leaves the same pending buffer, which is the text after the last newline;
fed `"$GPGGA,...,1*ok\n$GPRM"` and then `"C,...\n"` from an empty buffer, the
loop yields exactly the two sentences, the second put together across the
two calls. -/
theorem OnData_chunks {σ : Type} (handle : wxString → σ → σ) (buffer a b : wxString)
    (st : σ) :
    OnData handle b (OnData handle a (buffer, st)) = OnData handle (a ++ b) (buffer, st) ∧
    OnData Record b (OnData Record a (buffer, [])) = OnData Record (a ++ b) (buffer, []) ∧
    ('\n' ∉ (OnData handle a (buffer, st)).1 ∧
      ∃ pre, buffer ++ a = pre ++ (OnData handle a (buffer, st)).1 ∧
        (pre = [] ∨ pre.getLast? = some '\n')) ∧
    OnData Record "C,...\n".toList (OnData Record "$GPGGA,...,1*ok\n$GPRM".toList ([], []))
      = ([], ["$GPGGA,...,1*ok".toList, "$GPRMC,...".toList]) := by
  have key : ∀ {τ : Type} (h : wxString → τ → τ) (s : τ),
      OnData h b (OnData h a (buffer, s)) = OnData h (a ++ b) (buffer, s) := by
    intro τ h s
    simp only [OnData]
    rw [← List.append_assoc]
    exact (ProcessLines_append h b (buffer ++ a).length (buffer ++ a) s (le_refl _)).symm
  exact ⟨key handle st, key Record [],
    ProcessLines_pending handle (buffer ++ a).length (buffer ++ a) st (le_refl _), by decide⟩

/-- C8: on a sentence that splits into exactly six fields `ParseGGA` passes
its length test and reads `fields[6]`, one past the last element. -/
theorem ParseGGA_six_fields_reads_past_end (now : wxDateTime) (sentence : wxString)
    (mobile : MobileInfo) (h : (wxSplit sentence ',').length = 6) :
    ParseGGA now sentence mobile = none := by
  obtain ⟨a0, a1, a2, a3, a4, a5, hf⟩ := six_fields _ h
  simp [ParseGGA, hf, Item]

/-- C8, at a GGA sentence cut after its longitude hemisphere. -/
theorem ParseGGA_six_fields_reads_past_end_witness :
    (wxSplit "$GPGGA,123519,4807.038,N,01131.000,E".toList ',').length = 6 ∧
    ParseGGA 1000 "$GPGGA,123519,4807.038,N,01131.000,E".toList MobileInfo.new = none :=
  ⟨by decide, ParseGGA_six_fields_reads_past_end 1000 _ MobileInfo.new (by decide)⟩

/-- C9 as stated fails: one RMC sentence with status `A` and empty latitude
and longitude fields is accepted and sets `isValid`, the position staying at
its initial zero. -/
theorem isValid_without_position :
    wxSplit "$GPRMC,123519,A,,,,,022.4,084.4".toList ',' =
      ["$GPRMC".toList, "123519".toList, "A".toList, [], [], [], [], "022.4".toList,
        "084.4".toList] ∧
    ∃ r, ParseAll [(1000, "$GPRMC,123519,A,,,,,022.4,084.4".toList)] MobileInfo.new = some r ∧
      r.isValid = true ∧ r.latitude = 0 ∧ r.longitude = 0 := by
  have hf : wxSplit "$GPRMC,123519,A,,,,,022.4,084.4".toList ',' =
      ["$GPRMC".toList, "123519".toList, "A".toList, [], [], [], [], "022.4".toList,
        "084.4".toList] := by decide
  have hp : ParseNMEASentence 1000 "$GPRMC,123519,A,,,,,022.4,084.4".toList MobileInfo.new
      = ParseRMC 1000 "$GPRMC,123519,A,,,,,022.4,084.4".toList MobileInfo.new := by
    unfold ParseNMEASentence
    rw [if_neg (by decide), if_pos (by decide)]
  refine ⟨hf, ?_⟩
  simp only [ParseAll, hp, ParseRMC_accept 1000 _ MobileInfo.new _ _ _ _ _ _ _ _ _ hf]
  exact ⟨_, rfl, rfl, by simp [MobileInfo.new], by simp [MobileInfo.new]⟩

/-- C9, amended: `isValid` becomes true once a sentence has been accepted,
whether or not it carried a latitude and a longitude: after a sequence of
sentences processed by `ParseNMEASentence` from a `MobileInfo` that is not
valid, `isValid` is true exactly when some sentence of the sequence is one
that `ParseNMEASentence` accepts. -/
theorem isValid_iff_accepted (seq : List (wxDateTime × wxString)) (mobile r : MobileInfo)
    (hfresh : mobile.isValid = false) (h : ParseAll seq mobile = some r) :
    r.isValid = true ↔
      ∃ p ∈ seq, ∃ m, ParseNMEASentence p.1 p.2 MobileInfo.new = some (true, m) := by
  rw [ParseAll_isValid seq mobile r h, hfresh]
  simp

/-- C9 amended, at a rejected sentence followed by an accepted one. -/
theorem isValid_iff_accepted_witness :
    ∃ r, ParseAll [(1000, "$GPRMC,123518,V,,,,,,".toList),
        (2000, "$GPRMC,123519,A,,,,,022.4,084.4".toList)] MobileInfo.new = some r ∧
      (r.isValid = true ↔
        ∃ p ∈ [((1000 : wxDateTime), "$GPRMC,123518,V,,,,,,".toList),
            (2000, "$GPRMC,123519,A,,,,,022.4,084.4".toList)],
          ∃ m, ParseNMEASentence p.1 p.2 MobileInfo.new = some (true, m)) := by
  have hf1 : wxSplit "$GPRMC,123518,V,,,,,,".toList ',' =
      ["$GPRMC".toList, "123518".toList, "V".toList, [], [], [], [], [], []] := by decide
  have hf2 : wxSplit "$GPRMC,123519,A,,,,,022.4,084.4".toList ',' =
      ["$GPRMC".toList, "123519".toList, "A".toList, [], [], [], [], "022.4".toList,
        "084.4".toList] := by decide
  have hp1 : ∀ m, ParseNMEASentence 1000 "$GPRMC,123518,V,,,,,,".toList m = some (false, m) := by
    intro m
    unfold ParseNMEASentence
    rw [if_neg (by decide), if_pos (by decide)]
    exact ParseRMC_reject 1000 _ m _ _ _ _ hf1 (by decide)
  have hp2 : ∀ m, ∃ r, ParseNMEASentence 2000 "$GPRMC,123519,A,,,,,022.4,084.4".toList m
      = some (true, r) := by
    intro m
    unfold ParseNMEASentence
    rw [if_neg (by decide), if_pos (by decide)]
    exact ⟨_, ParseRMC_accept 2000 _ m _ _ _ _ _ _ _ _ _ hf2⟩
  obtain ⟨r, hr⟩ := hp2 MobileInfo.new
  have hall : ParseAll [(1000, "$GPRMC,123518,V,,,,,,".toList),
      (2000, "$GPRMC,123519,A,,,,,022.4,084.4".toList)] MobileInfo.new = some r := by
    simp only [ParseAll, hp1, hr]
  exact ⟨r, hall, isValid_iff_accepted _ MobileInfo.new r rfl hall⟩

/-- C10 as stated fails: a line with two leading blanks is not handed to the
parser at all, let alone without its blanks. -/
theorem leading_blanks_not_passed :
    OnData Record "  $GPGGA,...\n".toList ([], []) = ([], []) ∧
    OnData Record "  $GPGGA,...\n".toList ([], []) ≠ ([], ["$GPGGA,...".toList]) := by
  constructor <;> decide

/-- C10, amended: the framing loop hands to the parser, in order, the
complete lines of the buffer, each stripped of its trailing white space only,
that start with a dollar sign after the stripping; what is stripped is white
space at the end of the line and nothing else, so leading white space stays.
A line with leading blanks is not handed over; one with a trailing carriage
return is, without it. -/
theorem OnData_passes_right_trimmed (buffer data : wxString) (seen : List wxString) :
    OnData Record data (buffer, seen) =
      ((SpecLines (buffer ++ data)).2,
        seen ++ ((SpecLines (buffer ++ data)).1.map Trim).filter
          (fun l => StartsWith l "$".toList)) ∧
    (∀ line : wxString, ∃ ws, line = Trim line ++ ws ∧ (∀ c ∈ ws, isspace c = true) ∧
      ∀ c, (Trim line).getLast? = some c → isspace c = false) ∧
    OnData Record "  $GPGGA,...\n".toList ([], []) = ([], []) ∧
    OnData Record "$GPGGA,...\r\n".toList ([], []) = ([], ["$GPGGA,...".toList]) := by
  refine ⟨?_, Trim_spec, by decide, by decide⟩
  have hfold : ∀ (ls : List wxString) (acc : List wxString),
      ls.foldl (fun s l => Record l s) acc = acc ++ ls := by
    intro ls
    induction ls with
    | nil => intro acc; simp
    | cons l ls ih =>
      intro acc
      rw [List.foldl_cons, ih]
      simp [Record]
  simp only [OnData]
  rw [ProcessLines_eq_spec Record _ _ seen (le_refl _), hfold]

/-- C11 as stated fails: the string `-4807.038` denotes a negative number, so
it does not parse as a positive real, yet `ConvertToDecimalDegrees` converts
it: for the hemisphere `N` the result is `-48.1173`, not the invalid result
`0.0`. -/
theorem negative_coordinate_is_converted :
    ToDouble "-4807.038".toList = some (-(4807038 / 1000)) ∧
    ¬ (0 : ℚ) < -(4807038 / 1000) ∧
    ConvertToDecimalDegrees "-4807.038".toList "N".toList = -(481173 / 10000) ∧
    ConvertToDecimalDegrees "-4807.038".toList "N".toList ≠ 0 := by
  have hce : ⌈(-(4807038 / 1000) : ℚ) / 100⌉ = -48 := by
    rw [Int.ceil_eq_iff]; norm_num
  have hti : toInt ((-(4807038 / 1000) : ℚ) / 100) = -48 := by
    rw [toInt_of_nonpos _ (by norm_num) (by rw [hce]; decide), hce]
  have hw : wrapInt (-48 * 100) = -4800 := by decide
  have hval : ConvertToDecimalDegrees "-4807.038".toList "N".toList = -(481173 / 10000) := by
    rw [ConvertToDecimalDegrees_of_parse _ _ _ (by decide) ToDouble_neg4807 (by decide)
      (by decide), hti, hw]
    norm_num
  refine ⟨ToDouble_neg4807, by norm_num, hval, ?_⟩
  rw [hval]
  norm_num

/-- C11, amended: for a coordinate string of fewer than four characters, or
one for which `wxString::ToDouble` returns false (no number at its front,
text left after the number, or a number out of the range of `double`), and
for every hemisphere, `ConvertToDecimalDegrees` returns its invalid result
`0.0`; the sign of a number that is converted is not examined. -/
theorem ConvertToDecimalDegrees_invalid (coord hemisphere : wxString)
    (h : coord.length < 4 ∨ ToDoubleReturn coord = false) :
    ConvertToDecimalDegrees coord hemisphere = 0 := by
  unfold ConvertToDecimalDegrees
  by_cases hl : coord.length < 4
  · rw [if_pos hl]
  · rw [if_neg hl]
    rcases h with h | h
    · exact absurd h hl
    · simp only [ToDouble_of_return_false coord h]

/-- C11 amended, at a coordinate of three characters, at one of eight
characters with a letter among its digits, and at one beyond the range of
`double`. -/
theorem ConvertToDecimalDegrees_invalid_witness :
    ("480".toList.length < 4 ∨ ToDoubleReturn "480".toList = false) ∧
    ConvertToDecimalDegrees "480".toList "N".toList = 0 ∧
    ("48o7.038".toList.length < 4 ∨ ToDoubleReturn "48o7.038".toList = false) ∧
    ConvertToDecimalDegrees "48o7.038".toList "S".toList = 0 ∧
    ("1e999".toList.length < 4 ∨ ToDoubleReturn "1e999".toList = false) ∧
    ConvertToDecimalDegrees "1e999".toList "E".toList = 0 :=
  ⟨Or.inl (by decide),
    ConvertToDecimalDegrees_invalid "480".toList "N".toList (Or.inl (by decide)),
    Or.inr ToDoubleReturn_48o7,
    ConvertToDecimalDegrees_invalid "48o7.038".toList "S".toList (Or.inr ToDoubleReturn_48o7),
    Or.inr ToDoubleReturn_1e999,
    ConvertToDecimalDegrees_invalid "1e999".toList "E".toList (Or.inr ToDoubleReturn_1e999)⟩

end MultiMobiles
